import Mathlib

/- Formal model of the claude-terminal-panel extension core: the terminal
   session multiplexer (TerminalStateManager + ClaudeTerminalViewProvider),
   the command help parser chain (GnuStyleParser, ArgparseStyleParser,
   FallbackParser, CommandHelpParser) and the help executor
   (HelpExecutor).  JavaScript strings are modelled as Lean strings, JS
   insertion-ordered Maps as association lists, JS numbers as Int/Nat.
   Regular-expression matching is modelled with explicit greedy matching
   plus the backtracking points the concrete patterns can actually
   exercise, following the semantics of JS RegExp. -/

set_option maxHeartbeats 1000000

/-! ### JavaScript string primitives -/

/-- Character class of the JS regex `\s` (WhiteSpace plus line terminators). -/
def jsSpace (c : Char) : Bool :=
  c == ' ' || c == '\t' || c == '\n' || c == '\x0b' || c == '\x0c' || c == '\r' ||
  c == '\u00A0' || c == '\u1680' || (decide ('\u2000' ≤ c) && decide (c ≤ '\u200A')) ||
  c == '\u2028' || c == '\u2029' || c == '\u202F' || c == '\u205F' || c == '\u3000' ||
  c == '\uFEFF'

/-- Character class of the JS regex `\w` (ASCII letters, digits, underscore). -/
def jsWord (c : Char) : Bool := c.isAlpha || c.isDigit || c == '_'

/-- Character class of the JS regex `.` (anything but a line terminator). -/
def jsDot (c : Char) : Bool := !(c == '\n' || c == '\r' || c == '\u2028' || c == '\u2029')

/-- JS `String.prototype.split` with a single-character separator
    (keeps empty segments, including a trailing one). -/
def splitOnChar (sep : Char) : List Char → List (List Char)
  | [] => [[]]
  | c :: rest =>
    let r := splitOnChar sep rest
    if c == sep then [] :: r
    else
      match r with
      | h :: t => (c :: h) :: t
      | [] => [[c]]

/-- The line list that `output.split('\n')` produces. -/
def jsLines (s : String) : List String := (splitOnChar '\n' s.toList).map String.mk

/-- Substring test on character lists (JS `String.prototype.includes`). -/
def strIncludesAux (needle : List Char) : List Char → Bool
  | [] => needle.isEmpty
  | h :: t => needle.isPrefixOf (h :: t) || strIncludesAux needle t

/-- JS `s.includes(sub)`. -/
def strIncludes (s sub : String) : Bool := strIncludesAux sub.toList s.toList

/-- JS `String.prototype.trim` (strips `\s` characters from both ends). -/
def jsTrim (s : String) : String :=
  String.mk (((s.toList.dropWhile jsSpace).reverse.dropWhile jsSpace).reverse)

/-- Truthiness of a `string | undefined` JS value (`undefined` and `""` are falsy). -/
def jsTruthy : Option String → Bool
  | none => false
  | some s => !(s == "")

/-- JS `a || b` on two `string | undefined` values, defaulting to `""`
    (callers only use the result under a truthiness guard). -/
def jsOrStr (a b : Option String) : String :=
  if jsTruthy a then a.getD "" else b.getD ""

/-- JS `String.prototype.startsWith` (one-argument form). -/
def jsStartsWith (s pre : String) : Bool := pre.toList.isPrefixOf s.toList

/-! ### JS `Map` as an insertion-ordered association list -/

/-- `Map.prototype.get`. -/
def mapGet {α : Type} : List (String × α) → String → Option α
  | [], _ => none
  | (k, v) :: rest, key => if k = key then some v else mapGet rest key

/-- `Map.prototype.set`: update in place if the key exists, else append. -/
def mapSet {α : Type} : List (String × α) → String → α → List (String × α)
  | [], key, v => [(key, v)]
  | (k, w) :: rest, key, v =>
    if k = key then (k, v) :: rest else (k, w) :: mapSet rest key v

/-- `Map.prototype.delete`. -/
def mapDelete {α : Type} : List (String × α) → String → List (String × α)
  | [], _ => []
  | (k, w) :: rest, key => if k = key then rest else (k, w) :: mapDelete rest key

/-! ### Command help data model (src/types.ts) -/

/-- `CommandFlag` from types.ts. -/
structure CommandFlag where
  flag : String
  shortFlag : Option String
  description : String
  takesValue : Bool
  valueHint : Option String
deriving DecidableEq, Repr

instance : Inhabited CommandFlag := ⟨⟨"", none, "", false, none⟩⟩

/-- `ParsedHelp` from types.ts. -/
structure ParsedHelp where
  command : String
  flags : List CommandFlag
  subcommands : Option (List String)
  parseErrors : Option (List String)
deriving DecidableEq, Repr

/-! ### Shared regex building blocks of the help parsers -/

/-- Longest run of `jsDot` text ending the line: matches the suffix
    `\s{minRun,}(.+)$`, trying the greedy split first and backtracking.
    The argument is the number of leading `\s` characters still available. -/
def descCheckAt (cs : List Char) (j : Nat) : Option String :=
  let d := cs.drop j
  if !d.isEmpty && d.all jsDot then some (String.mk d) else none

def descTryFrom (cs : List Char) (minRun : Nat) : Nat → Option String
  | 0 => if minRun == 0 then descCheckAt cs 0 else none
  | j + 1 =>
    if j + 1 < minRun then none
    else
      match descCheckAt cs (j + 1) with
      | some d => some d
      | none => descTryFrom cs minRun j

/-- Matches `\s{minRun,}(.+)$` against the whole remaining line. -/
def spacesThenDesc (minRun : Nat) (cs : List Char) : Option String :=
  descTryFrom cs minRun ((cs.takeWhile jsSpace).length)

/-- Matches `(<[^>]+>|\[[^\]]+\])`, returning the captured hint and the rest. -/
def bracketHint : List Char → Option (String × List Char)
  | '<' :: rest =>
    (match rest.span (fun c => !(c == '>')) with
     | (inner, '>' :: rest2) =>
       if inner.isEmpty then none
       else some (String.mk ('<' :: (inner ++ ['>'])), rest2)
     | _ => none)
  | '[' :: rest =>
    (match rest.span (fun c => !(c == ']')) with
     | (inner, ']' :: rest2) =>
       if inner.isEmpty then none
       else some (String.mk ('[' :: (inner ++ [']'])), rest2)
     | _ => none)
  | _ => none

/-- Matches `[=\s](<[^>]+>|\[[^\]]+\])`, the body of GnuStyleParser's
    `valuePattern` option. -/
def tryValueHint : List Char → Option (String × List Char)
  | c :: rest => if c == '=' || jsSpace c then bracketHint rest else none
  | [] => none

/-- Matches `(?:[=\s](<…>|[…]))?\s{2,}(.+)$`: value hint first (greedy),
    falling back to no hint. Returns (captured hint, description). -/
def matchTail (cs : List Char) : Option (Option String × String) :=
  match tryValueHint cs with
  | some (hint, rest) =>
    (match spacesThenDesc 2 rest with
     | some d => some (some hint, d)
     | none => (spacesThenDesc 2 cs).map (fun d => ((none : Option String), d)))
  | none => (spacesThenDesc 2 cs).map (fun d => ((none : Option String), d))

/-- Matches `--[\w-]+` (maximal munch), returning the token and the rest. -/
def takeLongFlag : List Char → Option (String × List Char)
  | '-' :: '-' :: r =>
    let sp := r.span (fun c => jsWord c || c == '-')
    if sp.1.isEmpty then none else some (String.mk ('-' :: '-' :: sp.1), sp.2)
  | _ => none

/-- Matches `-\w`, returning the token and the rest. -/
def takeShortFlag : List Char → Option (String × List Char)
  | '-' :: w :: r => if jsWord w then some (String.mk ['-', w], r) else none
  | _ => none

/-! ### GnuStyleParser (commandHelpParser.ts) -/

/-- Pattern 1: `^\s*(-\w),?\s*(--[\w-]+)V\s{2,}(.+)$`.
    Returns the regex groups (first, second, valueHint, description);
    `second = none` models an unmatched (undefined) group. -/
def gnuMatch1 (cs : List Char) : Option (String × Option String × Option String × String) :=
  match takeShortFlag (cs.dropWhile jsSpace) with
  | some (short, rest) =>
    let rest1 := match rest with | ',' :: r => r | r => r
    (match takeLongFlag (rest1.dropWhile jsSpace) with
     | some (long, rest2) =>
       (matchTail rest2).map (fun (h, d) => (short, some long, h, d))
     | none => none)
  | none => none

/-- The `(-\w)?V\s{2,}(.+)$` part of pattern 2, at a fixed position
    (short flag present tried before absent, as the regex engine does). -/
def gnuMatch2ShortOpt (after : List Char) : Option (Option String × Option String × String) :=
  let viaShort :=
    match takeShortFlag after with
    | some (short, rest) => (matchTail rest).map (fun (h, d) => (some short, h, d))
    | none => none
  match viaShort with
  | some r => some r
  | none => (matchTail after).map (fun (h, d) => ((none : Option String), h, d))

/-- Backtracking over the `\s*` before `(-\w)?` in pattern 2 (greedy:
    largest space count first). -/
def gnuMatch2Iter (cs : List Char) : Nat → Option (Option String × Option String × String)
  | 0 => gnuMatch2ShortOpt cs
  | j + 1 =>
    match gnuMatch2ShortOpt (cs.drop (j + 1)) with
    | some r => some r
    | none => gnuMatch2Iter cs j

/-- Pattern 2: `^\s*(--[\w-]+),?\s*(-\w)?V\s{2,}(.+)$`. -/
def gnuMatch2 (cs : List Char) : Option (String × Option String × Option String × String) :=
  match takeLongFlag (cs.dropWhile jsSpace) with
  | some (long, rest) =>
    let rest1 := match rest with | ',' :: r => r | r => r
    (gnuMatch2Iter rest1 ((rest1.takeWhile jsSpace).length)).map
      (fun (short, h, d) => (long, short, h, d))
  | none => none

/-- Pattern 3: `^\s*()(--[\w-]+)V\s{2,}(.+)$` (first group matches `""`). -/
def gnuMatch3 (cs : List Char) : Option (String × Option String × Option String × String) :=
  match takeLongFlag (cs.dropWhile jsSpace) with
  | some (long, rest) => (matchTail rest).map (fun (h, d) => ("", some long, h, d))
  | none => none

/-- Pattern 4: `^\s*(-\w)()V\s{2,}(.+)$` (second group matches `""`). -/
def gnuMatch4 (cs : List Char) : Option (String × Option String × Option String × String) :=
  match takeShortFlag (cs.dropWhile jsSpace) with
  | some (short, rest) => (matchTail rest).map (fun (h, d) => (short, some "", h, d))
  | none => none

/-- One line against the four GNU patterns, in source order; first match wins. -/
def gnuMatchLine (line : String) : Option (String × Option String × Option String × String) :=
  let cs := line.toList
  match gnuMatch1 cs with
  | some r => some r
  | none =>
    match gnuMatch2 cs with
    | some r => some r
    | none =>
      match gnuMatch3 cs with
      | some r => some r
      | none => gnuMatch4 cs

/-- Test of `/^\s{minIndent,}\S/` (continuation-line check). -/
def indentContinuation (minIndent : Nat) (line : String) : Bool :=
  let cs := line.toList
  let k := (cs.takeWhile jsSpace).length
  decide (minIndent ≤ k) && decide (k < cs.length)

/-- `const short = first.startsWith('-') && !first.startsWith('--') ? first : second;`
    `const long  = first.startsWith('--') ? first : second;` -/
def gnuShortLong (first : String) (second : Option String) : Option String × Option String :=
  (if jsStartsWith first "-" && !(jsStartsWith first "--") then some first else second,
   if jsStartsWith first "--" then some first else second)

/-- The flag literal both GNU and argparse parsers push. -/
def mkParsedFlag (short long valueHint : Option String) (description : String) : CommandFlag :=
  { flag := jsOrStr long short,
    shortFlag := if jsTruthy short && jsTruthy long then short else none,
    description := jsTrim description,
    takesValue := jsTruthy valueHint,
    valueHint := if jsTruthy valueHint then valueHint else none }

/-- Parser loop state. JS mutates flag objects that may already have been
    pushed (`currentFlag` aliases the array entry), so the model keeps an
    object store and pushes indices. -/
structure ParseSt where
  store : List CommandFlag
  pushed : List Nat
  current : Option Nat
deriving Repr

/-- `if (currentFlag) { flags.push(currentFlag); }` -/
def pushCurrent (st : ParseSt) : ParseSt :=
  match st.current with
  | some i => { st with pushed := st.pushed ++ [i] }
  | none => st

/-- Allocate a fresh flag object and point `currentFlag` at it. -/
def allocCurrent (st : ParseSt) (f : CommandFlag) : ParseSt :=
  { store := st.store ++ [f], pushed := st.pushed, current := some st.store.length }

/-- `currentFlag.description += ' ' + line.trim();` -/
def appendContinuation (st : ParseSt) (line : String) : ParseSt :=
  match st.current with
  | some i =>
    let f := st.store.getD i default
    { st with store := st.store.set i { f with description := f.description ++ " " ++ jsTrim line } }
  | none => st

/-- One loop iteration of `GnuStyleParser.parse`. When a pattern matches
    but neither a long nor a short flag was captured, `matched` stays
    false in the source, so the continuation check still runs. -/
def gnuLineStep (st : ParseSt) (line : String) : ParseSt :=
  match gnuMatchLine line with
  | some (first, second, valueHint, description) =>
    let st1 := pushCurrent st
    let sl := gnuShortLong first second
    if jsTruthy sl.2 || jsTruthy sl.1 then
      allocCurrent st1 (mkParsedFlag sl.1 sl.2 valueHint description)
    else
      if indentContinuation 10 line then appendContinuation st1 line else st1
  | none =>
    if indentContinuation 10 line then appendContinuation st line else st

/-- Push the trailing `currentFlag` and read the flag list out of the store. -/
def helpParseFinish (command : String) (st : ParseSt) : ParsedHelp :=
  let st1 := pushCurrent st
  { command := command,
    flags := st1.pushed.map (fun i => st1.store.getD i default),
    subcommands := none,
    parseErrors := none }

def GnuStyleParser.parse (command output : String) : ParsedHelp :=
  helpParseFinish command ((jsLines output).foldl gnuLineStep ⟨[], [], none⟩)

/-- One line of the `canParse` regex `/^\s+-\w,?\s+--\w/m`. -/
def gnuShortLongLineTest (line : String) : Bool :=
  let cs := line.toList
  let sp := (cs.takeWhile jsSpace).length
  if sp == 0 then false
  else
    match takeShortFlag (cs.drop sp) with
    | some (_, rest) =>
      let rest1 := match rest with | ',' :: r => r | r => r
      let sp2 := (rest1.takeWhile jsSpace).length
      if sp2 == 0 then false
      else
        (match rest1.drop sp2 with
         | '-' :: '-' :: w :: _ => jsWord w
         | _ => false)
    | none => false

def GnuStyleParser.canParse (output : String) : Bool :=
  strIncludes output "--help" || strIncludes output "Usage:" ||
  strIncludes output "OPTIONS" || strIncludes output "Options:" ||
  (jsLines output).any gnuShortLongLineTest

/-! ### ArgparseStyleParser -/

/-- First-some over an ordered list of candidates (backtracking order). -/
def firstSome {α β : Type} (f : α → Option β) : List α → Option β
  | [] => none
  | a :: rest =>
    match f a with
    | some b => some b
    | none => firstSome f rest

/-- Candidates for `[A-Z_]+(?:\.\.\.)?` (greedy: with the `...` first). -/
def upperHintCandidates (cs : List Char) : List (String × List Char) :=
  let sp := cs.span (fun c => c.isUpper || c == '_')
  if sp.1.isEmpty then []
  else
    let base := String.mk sp.1
    match sp.2 with
    | '.' :: '.' :: '.' :: r2 => [(base ++ "...", r2), (base, sp.2)]
    | _ => [(base, sp.2)]

/-- Candidate for `<[^>]+>`. -/
def angleCandidates (cs : List Char) : List (String × List Char) :=
  match cs with
  | '<' :: rest =>
    (match rest.span (fun c => !(c == '>')) with
     | (inner, '>' :: rest2) =>
       if inner.isEmpty then [] else [(String.mk ('<' :: (inner ++ ['>'])), rest2)]
     | _ => [])
  | _ => []

/-- Candidates for the lazy `\[.*?\]`: successive `]` positions, nearest
    first; the content must be `jsDot` characters. -/
def bracketCandidatesAux : List Char → List Char → List (String × List Char)
  | [], _ => []
  | c :: rest, acc =>
    if c == ']' then
      (String.mk ('[' :: (acc.reverse ++ [']'])), rest) ::
        bracketCandidatesAux rest (']' :: acc)
    else if jsDot c then bracketCandidatesAux rest (c :: acc)
    else []

def lazyBracketCandidates (cs : List Char) : List (String × List Char) :=
  match cs with
  | '[' :: r => bracketCandidatesAux r []
  | _ => []

/-- The alternation `[A-Z_]+(?:\.\.\.)?|<[^>]+>|\[.*?\]` in source order. -/
def argHintCandidates (cs : List Char) : List (String × List Char) :=
  upperHintCandidates cs ++ angleCandidates cs ++ lazyBracketCandidates cs

/-- Matches `(?:\s+(HINT))?\s{2,}(.+)$` with full backtracking. -/
def argHintThenTail (p : List Char) : Option (Option String × String) :=
  let k := (p.takeWhile jsSpace).length
  let withHint :=
    firstSome (fun j =>
        firstSome (fun (hr : String × List Char) =>
            (spacesThenDesc 2 hr.2).map (fun d => (some hr.1, d)))
          (argHintCandidates (p.drop j)))
      ((List.range k).reverse.map (· + 1))
  match withHint with
  | some r => some r
  | none => (spacesThenDesc 2 p).map (fun d => ((none : Option String), d))

/-- Matches `(--[\w-]+)?` then the hint/description tail. -/
def argAfterComma (p : List Char) : Option (Option String × Option String × String) :=
  let viaLong :=
    match takeLongFlag p with
    | some (long, r2) => (argHintThenTail r2).map (fun (h, d) => (some long, h, d))
    | none => none
  match viaLong with
  | some r => some r
  | none => (argHintThenTail p).map (fun (h, d) => ((none : Option String), h, d))

/-- Matches `(?:,\s*)?` then the rest. -/
def argAfterShort (p : List Char) : Option (Option String × Option String × String) :=
  let viaComma :=
    match p with
    | ',' :: r =>
      firstSome (fun j => argAfterComma (r.drop j))
        (List.range (((r.takeWhile jsSpace).length) + 1)).reverse
    | _ => none
  match viaComma with
  | some r => some r
  | none => argAfterComma p

/-- The argparse line pattern
    `^\s*(-\w)?(?:,\s*)?(--[\w-]+)?(?:\s+(HINT))?\s{2,}(.+)$`,
    returning the groups (short, long, valueHint, description). -/
def argparseMatchLine (line : String) :
    Option (Option String × Option String × Option String × String) :=
  let cs := line.toList
  firstSome (fun j =>
      let p := cs.drop j
      let viaShort :=
        match takeShortFlag p with
        | some (short, r) => (argAfterShort r).map (fun (l, h, d) => (some short, l, h, d))
        | none => none
      match viaShort with
      | some r => some r
      | none => (argAfterShort p).map (fun (l, h, d) => ((none : Option String), l, h, d)))
    (List.range (((cs.takeWhile jsSpace).length) + 1)).reverse

/-- One loop iteration of `ArgparseStyleParser.parse`. Unlike the GNU
    parser, the continuation check is an `else if` of the match test. -/
def argparseLineStep (st : ParseSt) (line : String) : ParseSt :=
  match argparseMatchLine line with
  | some (short, long, valueHint, description) =>
    let st1 := pushCurrent st
    if jsTruthy long || jsTruthy short then
      allocCurrent st1 (mkParsedFlag short long valueHint description)
    else st1
  | none =>
    if indentContinuation 20 line then appendContinuation st line else st

def ArgparseStyleParser.parse (command output : String) : ParsedHelp :=
  helpParseFinish command ((jsLines output).foldl argparseLineStep ⟨[], [], none⟩)

def ArgparseStyleParser.canParse (output : String) : Bool :=
  strIncludes output "optional arguments:" || strIncludes output "positional arguments:" ||
  strIncludes output "options:"

/-! ### FallbackParser -/

/-- Matches `(?:[,=\s]+[<[]?\w+[>\]]?)?\s+(.+)$` with backtracking,
    returning the description. -/
def fbValueThenTail (cs : List Char) : Option String :=
  let commaRun := (cs.takeWhile (fun c => c == ',' || c == '=' || jsSpace c)).length
  let withValue :=
    firstSome (fun j =>
        let after := cs.drop j
        let openers : List (List Char) :=
          match after with
          | c :: r => if c == '<' || c == '[' then [r, after] else [after]
          | [] => [after]
        firstSome (fun p2 =>
            let sp := p2.span jsWord
            if sp.1.isEmpty then none
            else
              let closers : List (List Char) :=
                match sp.2 with
                | c :: r3 => if c == '>' || c == ']' then [r3, sp.2] else [sp.2]
                | [] => [sp.2]
              firstSome (fun p3 => spacesThenDesc 1 p3) closers)
          openers)
      ((List.range commaRun).reverse.map (· + 1))
  match withValue with
  | some d => some d
  | none => spacesThenDesc 1 cs

/-- The fallback line pattern `^\s*(--[\w-]+|-\w)(?:[,=\s]+[<[]?\w+[>\]]?)?\s+(.+)$`. -/
def fbMatchLine (line : String) : Option (String × String) :=
  let cs := line.toList.dropWhile jsSpace
  let flagCands : List (String × List Char) :=
    (match takeLongFlag cs with
     | some fr => [fr]
     | none => []) ++
    (match takeShortFlag cs with
     | some fr => [fr]
     | none => [])
  firstSome (fun fr => (fbValueThenTail fr.2).map (fun d => (fr.1, d))) flagCands

/-- Unanchored test of `/[<[]\w+[>\]]/` on the whole line. -/
def fbHintScan : List Char → Bool
  | [] => false
  | c :: rest =>
    ((c == '<' || c == '[') &&
      (let sp := rest.span jsWord
       !sp.1.isEmpty &&
         (match sp.2 with
          | c2 :: _ => c2 == '>' || c2 == ']'
          | [] => false))) ||
    fbHintScan rest

/-- One loop iteration of `FallbackParser.parse`: the accumulator is
    (flags array, `seen` set as a list). -/
def fbLineStep (acc : List CommandFlag × List String) (line : String) :
    List CommandFlag × List String :=
  match fbMatchLine line with
  | some (flag, description) =>
    if !(acc.2.contains flag) && !(strIncludes flag "=") then
      (acc.1 ++ [{ flag := flag, shortFlag := none,
                   description := jsTrim description,
                   takesValue := strIncludes line "=" || fbHintScan line.toList,
                   valueHint := none }],
       acc.2 ++ [flag])
    else acc
  | none => acc

def FallbackParser.parse (command output : String) : ParsedHelp :=
  let res := (jsLines output).foldl fbLineStep ([], [])
  { command := command, flags := res.1, subcommands := none,
    parseErrors := if res.1.isEmpty then some ["Could not parse help output"] else none }

def FallbackParser.canParse (_output : String) : Bool := true

/-! ### CommandHelpParser chain -/

structure HelpParserFns where
  canParse : String → Bool
  parse : String → String → ParsedHelp

/-- `private parsers: HelpParser[]` in source order. -/
def commandHelpParsers : List HelpParserFns :=
  [⟨GnuStyleParser.canParse, GnuStyleParser.parse⟩,
   ⟨ArgparseStyleParser.canParse, ArgparseStyleParser.parse⟩,
   ⟨FallbackParser.canParse, FallbackParser.parse⟩]

/-- The `for (const parser of this.parsers)` loop of `CommandHelpParser.parse`. -/
def CommandHelpParser.parseGo (command helpOutput : String) : List HelpParserFns → ParsedHelp
  | [] => { command := command, flags := [], subcommands := none,
            parseErrors := some ["No flags found in help output"] }
  | p :: rest =>
    if p.canParse helpOutput then
      let result := p.parse command helpOutput
      if 0 < result.flags.length then result
      else CommandHelpParser.parseGo command helpOutput rest
    else CommandHelpParser.parseGo command helpOutput rest

def CommandHelpParser.parse (command helpOutput : String) : ParsedHelp :=
  CommandHelpParser.parseGo command helpOutput commandHelpParsers

/-! ### HelpExecutor (helpExecutor.ts) -/

structure HelpCacheEntry where
  result : ParsedHelp
  timestamp : Int
deriving DecidableEq, Repr

structure HelpExecutorOptions where
  timeout : Int
  debounceMs : Int
  cacheMaxAge : Int
  cacheMaxSize : Int
deriving Repr

/-- The defaults applied in the `HelpExecutor` constructor. -/
def defaultHelpExecutorOptions : HelpExecutorOptions :=
  { timeout := 5000, debounceMs := 300, cacheMaxAge := 5 * 60 * 1000, cacheMaxSize := 50 }

/-- The synchronous decision `getHelp` makes before any awaiting:
    fresh cache hit, an in-flight request for the same command, or a new
    probe execution. -/
inductive GetHelpStep where
  | cached (result : ParsedHelp)
  | awaitPending
  | execute
deriving DecidableEq, Repr

def HelpExecutor.getHelpStep (opts : HelpExecutorOptions)
    (cache : List (String × HelpCacheEntry)) (pending : List String)
    (command : String) (now : Int) : GetHelpStep :=
  match mapGet cache command with
  | some entry =>
    if now - entry.timestamp < opts.cacheMaxAge then GetHelpStep.cached entry.result
    else if pending.contains command then GetHelpStep.awaitPending
    else GetHelpStep.execute
  | none =>
    if pending.contains command then GetHelpStep.awaitPending
    else GetHelpStep.execute

/-- `HelpExecutor.updateCache`: size-capped (oldest-first eviction) insert
    with a fresh timestamp. -/
def HelpExecutor.updateCache (opts : HelpExecutorOptions)
    (cache : List (String × HelpCacheEntry)) (command : String)
    (result : ParsedHelp) (now : Int) : List (String × HelpCacheEntry) :=
  let cache1 :=
    if opts.cacheMaxSize ≤ (cache.length : Int) then
      match cache with
      | (oldestKey, _) :: _ => if oldestKey ≠ "" then mapDelete cache oldestKey else cache
      | [] => cache
    else cache
  mapSet cache1 command { result := result, timestamp := now }

/-- Outcome of one help-probe attempt. `timedOut` models the timeout
    firing (the probe process is killed and the loop advances);
    `spawnFailed`/`errored` model the catch branch and the error event;
    `closed` carries the captured stdout and stderr at the close event. -/
inductive AttemptOutcome where
  | timedOut
  | spawnFailed
  | errored
  | closed (stdout stderr : String)
deriving DecidableEq, Repr

/-- `const helpFlags = ['--help', '-h', 'help'];` -/
def helpFlags : List String := ["--help", "-h", "help"]

/-- The acceptance test in the close handler:
    `const output = stdout || stderr; if (output && output.length > 50)`. -/
def attemptAccepts : AttemptOutcome → Option String
  | AttemptOutcome.closed stdout stderr =>
    let output := if stdout ≠ "" then stdout else stderr
    if output ≠ "" ∧ 50 < output.length then some output else none
  | _ => none

/-- The `tryNextFlag` recursion of `executeHelp`; the i-th attempt's
    outcome is `outcomes i`. -/
def executeHelpGo (command : String) (outcomes : Nat → AttemptOutcome) :
    List String → Nat → ParsedHelp
  | [], _ => { command := command, flags := [], subcommands := none,
               parseErrors := some ["Command does not support --help"] }
  | _flag :: restFlags, i =>
    match attemptAccepts (outcomes i) with
    | some output => CommandHelpParser.parse command output
    | none => executeHelpGo command outcomes restFlags (i + 1)

def HelpExecutor.executeHelp (command : String) (outcomes : Nat → AttemptOutcome) : ParsedHelp :=
  executeHelpGo command outcomes helpFlags 0

/-! ### Terminal multiplexer (terminalStateManager.ts + ClaudeTerminalViewProvider.ts) -/

/-- `TerminalInstance` from types.ts (the `pty` handle is an external
    resource and not part of the modelled state). -/
structure TerminalInstance where
  id : String
  name : String
  isActive : Bool
  workspaceFolderIndex : Option Nat
deriving DecidableEq, Repr

/-- The mutable state of `TerminalStateManager`: the insertion-ordered
    `terminals` map, `activeTerminalId` and `terminalCounter`. -/
structure MuxState where
  terminals : List (String × TerminalInstance)
  activeTerminalId : Option String
  terminalCounter : Nat
deriving DecidableEq, Repr

/-- `Array.from(this.terminals.keys())`. -/
def muxKeys (s : MuxState) : List String := s.terminals.map Prod.fst

/-- Mutating `instance.isActive` for the entry stored under `key`. -/
def setFlagAt (l : List (String × TerminalInstance)) (key : String) (b : Bool) :
    List (String × TerminalInstance) :=
  l.map (fun p => if p.1 = key then (p.1, { p.2 with isActive := b }) else p)

def TerminalStateManager.getActiveId (s : MuxState) : Option String := s.activeTerminalId

/-- The deactivate-previous phase of `setActive`:
    `if (this.activeTerminalId && this.activeTerminalId !== id) { … isActive = false }`.
    The guard includes the JS truthiness test against the empty string. -/
def deactivatePrevious (s : MuxState) (id : String) : List (String × TerminalInstance) :=
  match s.activeTerminalId with
  | some prev =>
    if prev ≠ "" ∧ prev ≠ id then
      match mapGet s.terminals prev with
      | some _ => setFlagAt s.terminals prev false
      | none => s.terminals
    else s.terminals
  | none => s.terminals

/-- `TerminalStateManager.setActive` (the returned `previousActive` is
    unused by every caller and therefore dropped). -/
def TerminalStateManager.setActive (s : MuxState) (id : String) : MuxState :=
  let terminals1 := deactivatePrevious s id
  match mapGet terminals1 id with
  | some _ =>
    { s with terminals := setFlagAt terminals1 id true, activeTerminalId := some id }
  | none => { s with terminals := terminals1 }

def TerminalStateManager.clearActive (s : MuxState) : MuxState :=
  { s with activeTerminalId := none }

/-- `ClaudeTerminalViewProvider.createTerminal`: fresh id (generateId),
    next name (generateName), insert inactive, then activate. Spawning
    and webview messages are external effects. `freshId` stands for the
    collision-free `generateId()` result, `folderIndex` for the awaited
    working-directory choice. -/
def createTerminal (s : MuxState) (freshId : String) (folderIndex : Option Nat) : MuxState :=
  let counter := s.terminalCounter + 1
  let instName := "Claude " ++ toString counter
  let inst : TerminalInstance :=
    { id := freshId, name := instName, isActive := false, workspaceFolderIndex := folderIndex }
  let s1 : MuxState :=
    { s with terminalCounter := counter, terminals := mapSet s.terminals freshId inst }
  TerminalStateManager.setActive s1 freshId

/-- `ClaudeTerminalViewProvider.switchToTerminal`. -/
def switchToTerminal (s : MuxState) (terminalId : String) : MuxState :=
  match mapGet s.terminals terminalId with
  | none => s
  | some _ => TerminalStateManager.setActive s terminalId

/-- `ClaudeTerminalViewProvider.handleActiveTerminalClosed`:
    `remaining[remaining.length - 1]` becomes active, or on empty the
    active id is cleared and a brand-new terminal is created. -/
def handleActiveTerminalClosed (s : MuxState) (freshId : String) (folderIndex : Option Nat) :
    MuxState :=
  match s.terminals.getLast? with
  | some newActive => switchToTerminal s newActive.2.id
  | none => createTerminal (TerminalStateManager.clearActive s) freshId folderIndex

/-- `ClaudeTerminalViewProvider.closeTerminal` (pty kill and prompt
    detector purge are external effects). -/
def closeTerminal (s : MuxState) (terminalId freshId : String) (folderIndex : Option Nat) :
    MuxState :=
  match mapGet s.terminals terminalId with
  | none => s
  | some _ =>
    let s1 := { s with terminals := mapDelete s.terminals terminalId }
    if TerminalStateManager.getActiveId s1 = some terminalId then
      handleActiveTerminalClosed s1 freshId folderIndex
    else s1

/-- JS `Array.prototype.indexOf` (−1 when absent). -/
def jsIndexOf : List String → String → Int
  | [], _ => -1
  | a :: rest, x =>
    if a = x then 0
    else
      let r := jsIndexOf rest x
      if r = -1 then -1 else r + 1

/-- `ClaudeTerminalViewProvider.switchToNextTerminal`. The `%` dividend
    `currentIndex + 1` is never negative (indexOf is at least −1), so
    Int.emod coincides with the JS remainder. -/
def switchToNextTerminal (s : MuxState) : MuxState :=
  let ids := muxKeys s
  if ids.length ≤ 1 then s
  else
    let currentIndex : Int := jsIndexOf ids ((TerminalStateManager.getActiveId s).getD "")
    let nextIndex : Nat := ((currentIndex + 1) % (ids.length : Int)).toNat
    switchToTerminal s (ids.getD nextIndex "")

/-- `ClaudeTerminalViewProvider.switchToPreviousTerminal`. The dividend
    `currentIndex - 1 + ids.length` is never negative on the reachable
    branch (`ids.length ≥ 2`). -/
def switchToPreviousTerminal (s : MuxState) : MuxState :=
  let ids := muxKeys s
  if ids.length ≤ 1 then s
  else
    let currentIndex : Int := jsIndexOf ids ((TerminalStateManager.getActiveId s).getD "")
    let prevIndex : Nat := ((currentIndex - 1 + (ids.length : Int)) % (ids.length : Int)).toNat
    switchToTerminal s (ids.getD prevIndex "")

/-- The multiplexer operations of the claims. Create (and the
    auto-recreate inside close) consume an externally generated fresh id
    and folder choice. -/
inductive MuxOp where
  | create (freshId : String) (folderIndex : Option Nat)
  | close (terminalId freshId : String) (folderIndex : Option Nat)
  | switchTab (terminalId : String)
  | nextTab
  | prevTab
deriving DecidableEq, Repr

def muxStep (s : MuxState) : MuxOp → MuxState
  | MuxOp.create freshId folderIndex => createTerminal s freshId folderIndex
  | MuxOp.close terminalId freshId folderIndex => closeTerminal s terminalId freshId folderIndex
  | MuxOp.switchTab terminalId => switchToTerminal s terminalId
  | MuxOp.nextTab => switchToNextTerminal s
  | MuxOp.prevTab => switchToPreviousTerminal s

/-- `generateId()` returns nonempty, never-before-used ids
    (time + random suffix; collisions are negligible per the spec). -/
def freshOk (s : MuxState) : MuxOp → Bool
  | MuxOp.create freshId _ => decide (freshId ≠ "") && decide (freshId ∉ muxKeys s)
  | MuxOp.close _ freshId _ => decide (freshId ≠ "") && decide (freshId ∉ muxKeys s)
  | _ => true

def muxInit : MuxState := { terminals := [], activeTerminalId := none, terminalCounter := 0 }

/-- States reachable from the empty multiplexer by the modelled operations. -/
inductive MuxReachable : MuxState → Prop where
  | init : MuxReachable muxInit
  | step (s : MuxState) (op : MuxOp) : MuxReachable s → freshOk s op = true →
      MuxReachable (muxStep s op)

/-- Number of terminal instances whose `isActive` flag is set. -/
def countActive (s : MuxState) : Nat :=
  (s.terminals.filter (fun p => p.2.isActive)).length

/-- All entries' flags rewritten so that exactly the entry keyed `a` is active. -/
def setFlags (l : List (String × TerminalInstance)) (a : String) :
    List (String × TerminalInstance) :=
  l.map (fun p => (p.1, { p.2 with isActive := decide (p.1 = a) }))

/-! ### Provider restart / exit reporting (ClaudeTerminalViewProvider.ts) -/

structure TabInfo where
  id : String
  name : String
  isActive : Bool
  accentColor : Option String
deriving DecidableEq, Repr

/-- `ExtensionMessage` from types.ts. -/
inductive ExtMessage where
  | output (id data : String)
  | clear (id : String)
  | tabsUpdate (tabs : List TabInfo)
  | createTab (id tabName : String) (accentColor : Option String)
  | switchTab (id : String)
  | removeTab (id : String)
deriving DecidableEq, Repr

/-- The provider fields `handlePtyExit` and `restart` read and write. -/
structure ProviderFlags where
  disposed : Bool
  hasView : Bool
  isRestarting : Bool
  activeTerminalId : Option String
deriving DecidableEq, Repr

def exitMessage (terminalId : String) (exitCode : Int) : ExtMessage :=
  ExtMessage.output terminalId
    ("\r\n[Process exited with code " ++ toString exitCode ++ "]\r\n")

/-- `ClaudeTerminalViewProvider.handlePtyExit`: posts the exit report
    unless disposed, view-less, or inside the restart grace window. -/
def handlePtyExit (p : ProviderFlags) (terminalId : String) (exitCode : Int) :
    Option ExtMessage :=
  if p.disposed = false ∧ p.hasView = true ∧ p.isRestarting = false then
    some (exitMessage terminalId exitCode)
  else none

/-- `ClaudeTerminalViewProvider.clear` (posts only with a live view and a
    truthy active id). -/
def providerClear (p : ProviderFlags) : List ExtMessage :=
  match p.activeTerminalId with
  | some activeId => if activeId ≠ "" ∧ p.hasView then [ExtMessage.clear activeId] else []
  | none => []

/-- `ClaudeTerminalViewProvider.restart`: no-op without a truthy active
    id; otherwise raises `isRestarting`, clears, kills and respawns (the
    latter two are external effects). The 100 ms `setTimeout` that
    resets the flag is delivered as the separate `restartTimerFire`
    event below. -/
def ClaudeTerminalViewProvider.restart (p : ProviderFlags) : ProviderFlags × List ExtMessage :=
  match p.activeTerminalId with
  | none => (p, [])
  | some activeId =>
    if activeId = "" then (p, [])
    else
      let p1 := { p with isRestarting := true }
      (p1, providerClear p1)

/-- The restart grace-window timer firing (`this.isRestarting = false`). -/
def restartTimerFire (p : ProviderFlags) : ProviderFlags :=
  { p with isRestarting := false }

/-! ### Concrete states used by the witnesses -/

/-- A two-terminal reachable state: two `createTerminal` calls. -/
def muxDemo1 : MuxState := muxStep muxInit (MuxOp.create "terminal-1-a" none)

def muxDemo2 : MuxState := muxStep muxDemo1 (MuxOp.create "terminal-2-b" none)

/-- A state with one active terminal, used by the dangling-active-id witness. -/
def muxDangling : MuxState :=
  { terminals := [("terminal-1-a", ⟨"terminal-1-a", "Claude 1", true, none⟩)],
    activeTerminalId := some "terminal-1-a",
    terminalCounter := 1 }

/-- A stale help-cache entry (timestamp 0). -/
def demoCacheEntry : HelpCacheEntry :=
  { result := { command := "git", flags := [], subcommands := none, parseErrors := none },
    timestamp := 0 }

/-- Help text on which the GNU-style parser returns two flags with the
    same long-form key. -/
def gnuDupHelpText : String :=
  "Options:\n  --verbose  be verbose\n  --verbose  be verbose\n"

/-- A provider state inside the restart grace window. -/
def demoRestarting : ProviderFlags :=
  { disposed := false, hasView := true, isRestarting := true,
    activeTerminalId := some "terminal-1-a" }

/-- A live provider state before a restart. -/
def demoProvider : ProviderFlags :=
  { disposed := false, hasView := true, isRestarting := false,
    activeTerminalId := some "terminal-1-a" }

/-- The state an activation leaves behind: all flags rewritten so that
    exactly `a` is active, and the active pointer on `a`. -/
def muxActivate (s : MuxState) (a : String) : MuxState :=
  { terminals := setFlags s.terminals a, activeTerminalId := some a,
    terminalCounter := s.terminalCounter }

/-- The multiplexer state invariant: distinct nonempty keys, instance ids
    coherent with their keys, every active instance is the one
    `activeTerminalId` points to, and a nonempty map has an active
    instance under `activeTerminalId`. -/
structure MuxInv (s : MuxState) : Prop where
  keysNodup : (muxKeys s).Nodup
  keysNe : ∀ p ∈ s.terminals, p.1 ≠ ""
  idCoh : ∀ p ∈ s.terminals, p.2.id = p.1
  activeCoh : ∀ p ∈ s.terminals, p.2.isActive = true → some p.1 = s.activeTerminalId
  activeLive : s.terminals ≠ [] →
    ∃ p ∈ s.terminals, some p.1 = s.activeTerminalId ∧ p.2.isActive = true

/-! ### Association-list lemmas -/

theorem mapGet_mem {α : Type} (l : List (String × α)) (k : String) (v : α)
    (h : mapGet l k = some v) : (k, v) ∈ l := by
  induction l with
  | nil => simp [mapGet] at h
  | cons p rest ih =>
    rw [mapGet] at h
    by_cases hk : p.1 = k
    · rw [if_pos hk] at h
      injection h with h2
      have hpk : p = (k, v) := by
        cases p
        simp_all
      rw [← hpk]
      exact List.mem_cons_self _ _
    · rw [if_neg hk] at h
      exact List.mem_cons_of_mem _ (ih h)

theorem mem_keys_of_mapGet {α : Type} (l : List (String × α)) (k : String) (v : α)
    (h : mapGet l k = some v) : k ∈ l.map Prod.fst := by
  exact List.mem_map.mpr ⟨(k, v), mapGet_mem l k v h, rfl⟩

theorem mapGet_isSome_of_mem_keys {α : Type} (l : List (String × α)) (k : String)
    (h : k ∈ l.map Prod.fst) : ∃ v, mapGet l k = some v := by
  induction l with
  | nil => simp at h
  | cons p rest ih =>
    rw [List.map_cons, List.mem_cons] at h
    by_cases hk : p.1 = k
    · exact ⟨p.2, by rw [mapGet, if_pos hk]⟩
    · have : k ∈ rest.map Prod.fst := by
        rcases h with h | h
        · exact absurd h.symm hk
        · exact h
      rcases ih this with ⟨v, hv⟩
      exact ⟨v, by rw [mapGet, if_neg hk]; exact hv⟩

theorem mapGet_eq_none_of_not_mem {α : Type} (l : List (String × α)) (k : String)
    (h : k ∉ l.map Prod.fst) : mapGet l k = none := by
  cases hg : mapGet l k with
  | none => rfl
  | some v => exact absurd (mem_keys_of_mapGet l k v hg) h

theorem mapSet_append_of_not_mem {α : Type} (l : List (String × α)) (k : String) (v : α)
    (h : k ∉ l.map Prod.fst) : mapSet l k v = l ++ [(k, v)] := by
  induction l with
  | nil => rfl
  | cons p rest ih =>
    rw [List.map_cons, List.mem_cons] at h
    push_neg at h
    rw [mapSet, if_neg (Ne.symm h.1), ih h.2]
    rfl

theorem mapGet_append_single {α : Type} (l : List (String × α)) (k : String) (v : α)
    (h : k ∉ l.map Prod.fst) : mapGet (l ++ [(k, v)]) k = some v := by
  induction l with
  | nil => simp [mapGet]
  | cons p rest ih =>
    rw [List.map_cons, List.mem_cons] at h
    push_neg at h
    rw [List.cons_append, mapGet, if_neg (Ne.symm h.1)]
    exact ih h.2

theorem mapDelete_sublist {α : Type} (l : List (String × α)) (k : String) :
    (mapDelete l k).Sublist l := by
  induction l with
  | nil => simp [mapDelete]
  | cons p rest ih =>
    rw [mapDelete]
    by_cases hk : p.1 = k
    · rw [if_pos hk]
      exact (List.Sublist.refl rest).cons p
    · rw [if_neg hk]
      exact ih.cons₂ p

theorem mem_of_mem_mapDelete {α : Type} (l : List (String × α)) (k : String)
    (p : String × α) (h : p ∈ mapDelete l k) : p ∈ l :=
  (mapDelete_sublist l k).mem h

theorem mem_mapDelete_of_ne {α : Type} (l : List (String × α)) (k : String)
    (p : String × α) (hp : p ∈ l) (hne : p.1 ≠ k) : p ∈ mapDelete l k := by
  induction l with
  | nil => simp at hp
  | cons q rest ih =>
    rw [mapDelete]
    rcases List.mem_cons.mp hp with h | h
    · subst h
      rw [if_neg hne]
      exact List.mem_cons_self _ _
    · by_cases hq : q.1 = k
      · rw [if_pos hq]; exact h
      · rw [if_neg hq]; exact List.mem_cons_of_mem _ (ih h)

theorem not_mem_keys_mapDelete {α : Type} (l : List (String × α)) (k : String)
    (hnd : (l.map Prod.fst).Nodup) : k ∉ (mapDelete l k).map Prod.fst := by
  induction l with
  | nil => simp [mapDelete]
  | cons p rest ih =>
    rw [List.map_cons, List.nodup_cons] at hnd
    rw [mapDelete]
    by_cases hk : p.1 = k
    · rw [if_pos hk]
      rw [hk] at hnd
      exact hnd.1
    · rw [if_neg hk]
      rw [List.map_cons]
      intro hmem
      rcases List.mem_cons.mp hmem with h | h
      · exact hk h.symm
      · exact ih hnd.2 h

theorem mapGet_mapDelete_self {α : Type} (l : List (String × α)) (k : String)
    (hnd : (l.map Prod.fst).Nodup) : mapGet (mapDelete l k) k = none :=
  mapGet_eq_none_of_not_mem _ _ (not_mem_keys_mapDelete l k hnd)

theorem mapGet_mapSet_self {α : Type} (l : List (String × α)) (k : String) (v : α) :
    mapGet (mapSet l k v) k = some v := by
  induction l with
  | nil => simp [mapSet, mapGet]
  | cons p rest ih =>
    rw [mapSet]
    by_cases hk : p.1 = k
    · rw [if_pos hk, mapGet, if_pos hk]
    · rw [if_neg hk, mapGet, if_neg hk]
      exact ih

theorem entry_key_inj {α : Type} (l : List (String × α))
    (hnd : (l.map Prod.fst).Nodup) (p q : String × α)
    (hp : p ∈ l) (hq : q ∈ l) (h : p.1 = q.1) : p = q := by
  induction l with
  | nil => simp at hp
  | cons a rest ih =>
    rw [List.map_cons, List.nodup_cons] at hnd
    rcases List.mem_cons.mp hp with hp1 | hp1 <;> rcases List.mem_cons.mp hq with hq1 | hq1
    · rw [hp1, hq1]
    · exfalso
      apply hnd.1
      have hkey : a.1 = q.1 := by rw [← hp1]; exact h
      exact List.mem_map.mpr ⟨q, hq1, hkey.symm⟩
    · exfalso
      apply hnd.1
      have hkey : a.1 = p.1 := by rw [← hq1]; exact h.symm
      exact List.mem_map.mpr ⟨p, hp1, hkey.symm⟩
    · exact ih hnd.2 hp1 hq1

/-! ### Flag-rewriting lemmas -/

theorem keys_setFlagAt (l : List (String × TerminalInstance)) (k : String) (b : Bool) :
    (setFlagAt l k b).map Prod.fst = l.map Prod.fst := by
  unfold setFlagAt
  rw [List.map_map]
  apply List.map_congr_left
  intro p _
  by_cases hk : p.1 = k
  · simp [hk]
  · simp [hk]

theorem keys_setFlags (l : List (String × TerminalInstance)) (a : String) :
    (setFlags l a).map Prod.fst = l.map Prod.fst := by
  unfold setFlags
  rw [List.map_map]
  rfl

theorem length_setFlags (l : List (String × TerminalInstance)) (a : String) :
    (setFlags l a).length = l.length := by
  unfold setFlags
  rw [List.length_map]

theorem mapGet_setFlagAt_self (l : List (String × TerminalInstance)) (k : String) (b : Bool) :
    mapGet (setFlagAt l k b) k = (mapGet l k).map (fun v => { v with isActive := b }) := by
  induction l with
  | nil => rfl
  | cons p rest ih =>
    unfold setFlagAt at ih ⊢
    rw [List.map_cons]
    by_cases hk : p.1 = k
    · rw [if_pos hk]
      rw [mapGet, mapGet, if_pos hk, if_pos hk]
      rfl
    · rw [if_neg hk]
      rw [mapGet, mapGet, if_neg hk, if_neg hk]
      exact ih

theorem mapGet_setFlagAt_ne (l : List (String × TerminalInstance)) (k j : String) (b : Bool)
    (h : j ≠ k) : mapGet (setFlagAt l k b) j = mapGet l j := by
  induction l with
  | nil => rfl
  | cons p rest ih =>
    unfold setFlagAt at ih ⊢
    rw [List.map_cons]
    by_cases hk : p.1 = k
    · rw [if_pos hk]
      rw [mapGet, mapGet]
      have : ¬(p.1 = j) := by rw [hk]; exact fun hh => h hh.symm
      rw [if_neg this, if_neg this]
      exact ih
    · rw [if_neg hk]
      rw [mapGet, mapGet]
      by_cases hj : p.1 = j
      · rw [if_pos hj, if_pos hj]
      · rw [if_neg hj, if_neg hj]
        exact ih

theorem setFlags_setFlags (l : List (String × TerminalInstance)) (a b : String) :
    setFlags (setFlags l a) b = setFlags l b := by
  unfold setFlags
  rw [List.map_map]
  rfl

/-- Activating `id` when every already-active entry is keyed `id`
    (covers: no previous active, or previous = id). -/
theorem setFlagAt_one_eq_setFlags (l : List (String × TerminalInstance)) (id : String)
    (h : ∀ p ∈ l, p.2.isActive = true → p.1 = id) :
    setFlagAt l id true = setFlags l id := by
  unfold setFlagAt setFlags
  apply List.map_congr_left
  intro p hp
  by_cases hk : p.1 = id
  · simp [hk]
  · rw [if_neg hk]
    have hact : p.2.isActive = false := by
      cases hA : p.2.isActive
      · rfl
      · exact absurd (h p hp hA) hk
    have : decide (p.1 = id) = false := by simp [hk]
    rw [this]
    cases p with
    | mk k v =>
      cases v
      simp_all

/-- Deactivating `prev` then activating `id` when every already-active
    entry is keyed `prev`. -/
theorem setFlagAt_two_eq_setFlags (l : List (String × TerminalInstance)) (prev id : String)
    (hne : prev ≠ id)
    (h : ∀ p ∈ l, p.2.isActive = true → p.1 = prev) :
    setFlagAt (setFlagAt l prev false) id true = setFlags l id := by
  unfold setFlagAt setFlags
  rw [List.map_map]
  apply List.map_congr_left
  intro p hp
  by_cases hprev : p.1 = prev
  · have hid : ¬(p.1 = id) := by rw [hprev]; exact hne
    have : decide (p.1 = id) = false := by simp [hid]
    simp only [Function.comp_apply, if_pos hprev, if_neg hid, this]
  · by_cases hid : p.1 = id
    · have : decide (p.1 = id) = true := by simp [hid]
      simp only [Function.comp_apply, if_neg hprev, if_pos hid, this]
    · have hact : p.2.isActive = false := by
        cases hA : p.2.isActive
        · rfl
        · exact absurd (h p hp hA) hprev
      have : decide (p.1 = id) = false := by simp [hid]
      simp only [Function.comp_apply, if_neg hprev, if_neg hid, this]
      cases p with
      | mk k v =>
        cases v
        simp_all

/-! ### setActive lemmas -/

theorem keys_deactivatePrevious (s : MuxState) (id : String) :
    (deactivatePrevious s id).map Prod.fst = muxKeys s := by
  unfold deactivatePrevious muxKeys
  cases s.activeTerminalId with
  | none => rfl
  | some prev =>
    simp only []
    by_cases hc : prev ≠ "" ∧ prev ≠ id
    · rw [if_pos hc]
      cases mapGet s.terminals prev with
      | some w => exact keys_setFlagAt _ _ _
      | none => rfl
    · rw [if_neg hc]

theorem mapGet_deactivatePrevious_at_id (s : MuxState) (id : String) :
    mapGet (deactivatePrevious s id) id = mapGet s.terminals id := by
  unfold deactivatePrevious
  cases s.activeTerminalId with
  | none => rfl
  | some prev =>
    simp only []
    by_cases hc : prev ≠ "" ∧ prev ≠ id
    · rw [if_pos hc]
      cases mapGet s.terminals prev with
      | some w => exact mapGet_setFlagAt_ne _ _ _ _ (fun hh => hc.2 hh.symm)
      | none => rfl
    · rw [if_neg hc]

/-- Activating after deactivating leaves exactly `id` active, provided
    every previously active entry is the one `activeTerminalId` points to. -/
theorem deactivate_then_activate (s : MuxState) (id : String)
    (hne : ∀ p ∈ s.terminals, p.1 ≠ "")
    (hcoh : ∀ p ∈ s.terminals, p.2.isActive = true → some p.1 = s.activeTerminalId) :
    setFlagAt (deactivatePrevious s id) id true = setFlags s.terminals id := by
  unfold deactivatePrevious
  cases hact : s.activeTerminalId with
  | none =>
    apply setFlagAt_one_eq_setFlags
    intro p hp hA
    have h1 := hcoh p hp hA
    rw [hact] at h1
    exact Option.noConfusion h1
  | some prev =>
    simp only []
    by_cases hc : prev ≠ "" ∧ prev ≠ id
    · rw [if_pos hc]
      cases hp : mapGet s.terminals prev with
      | some w =>
        apply setFlagAt_two_eq_setFlags s.terminals prev id hc.2
        intro p hpm hA
        have h1 := hcoh p hpm hA
        rw [hact] at h1
        injection h1 with h1
      | none =>
        apply setFlagAt_one_eq_setFlags
        intro p hpm hA
        exfalso
        have h1 := hcoh p hpm hA
        rw [hact] at h1
        injection h1 with h1
        rcases mapGet_isSome_of_mem_keys s.terminals prev
            (h1 ▸ List.mem_map.mpr ⟨p, hpm, rfl⟩) with ⟨v, hv⟩
        rw [hp] at hv
        exact Option.noConfusion hv
    · rw [if_neg hc]
      apply setFlagAt_one_eq_setFlags
      intro p hpm hA
      have h1 := hcoh p hpm hA
      rw [hact] at h1
      injection h1 with h1
      push_neg at hc
      by_cases hpe : prev = ""
      · exact absurd (h1.trans hpe) (hne p hpm)
      · rw [h1]
        exact hc hpe

/-- `setActive` on a present id rewrites the state to the canonical
    activated form. -/
theorem setActive_present (s : MuxState) (id : String) (inst : TerminalInstance)
    (hne : ∀ p ∈ s.terminals, p.1 ≠ "")
    (hcoh : ∀ p ∈ s.terminals, p.2.isActive = true → some p.1 = s.activeTerminalId)
    (hget : mapGet s.terminals id = some inst) :
    TerminalStateManager.setActive s id = muxActivate s id := by
  unfold TerminalStateManager.setActive
  have hdeact : mapGet (deactivatePrevious s id) id = some inst := by
    rw [mapGet_deactivatePrevious_at_id]
    exact hget
  simp only [hdeact]
  unfold muxActivate
  rw [deactivate_then_activate s id hne hcoh]

/-- `setActive` on an absent id only runs the deactivation phase and
    leaves `activeTerminalId` unchanged. -/
theorem setActive_absent (s : MuxState) (id : String)
    (hget : mapGet s.terminals id = none) :
    TerminalStateManager.setActive s id = { s with terminals := deactivatePrevious s id } := by
  unfold TerminalStateManager.setActive
  have hdeact : mapGet (deactivatePrevious s id) id = none := by
    rw [mapGet_deactivatePrevious_at_id]
    exact hget
  simp only [hdeact]

/-! ### Invariant preservation -/

theorem muxGetLast_mem {α : Type} (l : List α) (a : α) (h : l.getLast? = some a) : a ∈ l := by
  induction l with
  | nil => simp at h
  | cons x rest ih =>
    cases hr : rest with
    | nil =>
      subst hr
      simp [List.getLast?] at h
      simp [h]
    | cons y t =>
      subst hr
      rw [List.getLast?_cons_cons] at h
      exact List.mem_cons_of_mem _ (ih h)

theorem muxInv_init : MuxInv muxInit := by
  constructor
  · simp [muxKeys, muxInit]
  · intro p hp
    simp [muxInit] at hp
  · intro p hp
    simp [muxInit] at hp
  · intro p hp
    simp [muxInit] at hp
  · intro hne
    simp [muxInit] at hne

theorem muxInv_muxActivate (s : MuxState) (id : String) (inst : TerminalInstance)
    (hnodup : (muxKeys s).Nodup)
    (hne : ∀ p ∈ s.terminals, p.1 ≠ "")
    (hid : ∀ p ∈ s.terminals, p.2.id = p.1)
    (hget : mapGet s.terminals id = some inst) :
    MuxInv (muxActivate s id) := by
  constructor
  · show ((setFlags s.terminals id).map Prod.fst).Nodup
    rw [keys_setFlags]
    exact hnodup
  · intro p hp
    rcases List.mem_map.mp hp with ⟨q, hq, hqe⟩
    rw [← hqe]
    exact hne q hq
  · intro p hp
    rcases List.mem_map.mp hp with ⟨q, hq, hqe⟩
    rw [← hqe]
    exact hid q hq
  · intro p hp hA
    rcases List.mem_map.mp hp with ⟨q, hq, hqe⟩
    rw [← hqe] at hA ⊢
    simp only [] at hA
    show some q.1 = some id
    rw [decide_eq_true_iff] at hA
    rw [hA]
  · intro _
    refine ⟨(id, { inst with isActive := decide (id = id) }), ?_, ?_, ?_⟩
    · exact List.mem_map.mpr ⟨(id, inst), mapGet_mem _ _ _ hget, rfl⟩
    · rfl
    · simp

/-- `createTerminal` rewritten to the canonical activated form. -/
theorem createTerminal_eq (s : MuxState) (freshId : String) (fi : Option Nat)
    (hne : ∀ p ∈ s.terminals, p.1 ≠ "")
    (hcoh : ∀ p ∈ s.terminals, p.2.isActive = true → some p.1 = s.activeTerminalId)
    (hfresh : freshId ∉ muxKeys s) (hfne : freshId ≠ "") :
    createTerminal s freshId fi =
      muxActivate
        { terminals := s.terminals ++
            [(freshId, { id := freshId, name := "Claude " ++ toString (s.terminalCounter + 1),
                         isActive := false, workspaceFolderIndex := fi })],
          activeTerminalId := s.activeTerminalId,
          terminalCounter := s.terminalCounter + 1 } freshId := by
  unfold createTerminal
  simp only []
  rw [mapSet_append_of_not_mem s.terminals freshId _ hfresh]
  apply setActive_present _ _
      { id := freshId, name := "Claude " ++ toString (s.terminalCounter + 1),
        isActive := false, workspaceFolderIndex := fi }
  · intro p hp
    rcases List.mem_append.mp hp with hp1 | hp1
    · exact hne p hp1
    · rw [List.mem_singleton.mp hp1]
      exact hfne
  · intro p hp hA
    rcases List.mem_append.mp hp with hp1 | hp1
    · exact hcoh p hp1 hA
    · rw [List.mem_singleton.mp hp1] at hA
      simp at hA
  · exact mapGet_append_single _ _ _ hfresh

theorem muxInv_createTerminal (s : MuxState) (freshId : String) (fi : Option Nat)
    (hnodup : (muxKeys s).Nodup)
    (hne : ∀ p ∈ s.terminals, p.1 ≠ "")
    (hid : ∀ p ∈ s.terminals, p.2.id = p.1)
    (hcoh : ∀ p ∈ s.terminals, p.2.isActive = true → some p.1 = s.activeTerminalId)
    (hfresh : freshId ∉ muxKeys s) (hfne : freshId ≠ "") :
    MuxInv (createTerminal s freshId fi) ∧
      (createTerminal s freshId fi).terminals.length = s.terminals.length + 1 := by
  rw [createTerminal_eq s freshId fi hne hcoh hfresh hfne]
  have hkeys2 : muxKeys
      { terminals := s.terminals ++
          [(freshId, { id := freshId, name := "Claude " ++ toString (s.terminalCounter + 1),
                       isActive := false, workspaceFolderIndex := fi })],
        activeTerminalId := s.activeTerminalId,
        terminalCounter := s.terminalCounter + 1 } = muxKeys s ++ [freshId] := by
    show (s.terminals ++ _).map Prod.fst = _
    rw [List.map_append]
    rfl
  constructor
  · apply muxInv_muxActivate _ _
        { id := freshId, name := "Claude " ++ toString (s.terminalCounter + 1),
          isActive := false, workspaceFolderIndex := fi }
    · rw [hkeys2]
      rw [List.nodup_append]
      refine ⟨hnodup, List.nodup_singleton _, ?_⟩
      intro a ha hb
      rw [List.mem_singleton.mp hb] at ha
      exact hfresh ha
    · intro p hp
      rcases List.mem_append.mp hp with hp1 | hp1
      · exact hne p hp1
      · rw [List.mem_singleton.mp hp1]
        exact hfne
    · intro p hp
      rcases List.mem_append.mp hp with hp1 | hp1
      · exact hid p hp1
      · rw [List.mem_singleton.mp hp1]
    · exact mapGet_append_single _ _ _ hfresh
  · show (setFlags _ _).length = _
    rw [length_setFlags, List.length_append]
    rfl

theorem muxInv_switch_present (s : MuxState) (tid : String) (inst : TerminalInstance)
    (hnodup : (muxKeys s).Nodup)
    (hne : ∀ p ∈ s.terminals, p.1 ≠ "")
    (hid : ∀ p ∈ s.terminals, p.2.id = p.1)
    (hcoh : ∀ p ∈ s.terminals, p.2.isActive = true → some p.1 = s.activeTerminalId)
    (hget : mapGet s.terminals tid = some inst) :
    MuxInv (switchToTerminal s tid) := by
  unfold switchToTerminal
  rw [hget]
  rw [setActive_present s tid inst hne hcoh hget]
  exact muxInv_muxActivate s tid inst hnodup hne hid hget

theorem muxInv_switchToTerminal (s : MuxState) (tid : String) (h : MuxInv s) :
    MuxInv (switchToTerminal s tid) := by
  cases hget : mapGet s.terminals tid with
  | none =>
    unfold switchToTerminal
    rw [hget]
    exact h
  | some inst => exact muxInv_switch_present s tid inst h.keysNodup h.keysNe h.idCoh h.activeCoh hget

theorem muxInv_closeTerminal (s : MuxState) (tid freshId : String) (fi : Option Nat)
    (h : MuxInv s) (_hfresh : freshId ∉ muxKeys s) (hfne : freshId ≠ "") :
    MuxInv (closeTerminal s tid freshId fi) := by
  unfold closeTerminal
  cases hget : mapGet s.terminals tid with
  | none => exact h
  | some inst =>
    simp only [TerminalStateManager.getActiveId]
    have hnd1 : ((mapDelete s.terminals tid).map Prod.fst).Nodup :=
      ((mapDelete_sublist s.terminals tid).map Prod.fst).nodup h.keysNodup
    have hne1 : ∀ p ∈ mapDelete s.terminals tid, p.1 ≠ "" :=
      fun p hp => h.keysNe p (mem_of_mem_mapDelete _ _ _ hp)
    have hid1 : ∀ p ∈ mapDelete s.terminals tid, p.2.id = p.1 :=
      fun p hp => h.idCoh p (mem_of_mem_mapDelete _ _ _ hp)
    have hcoh1 : ∀ p ∈ mapDelete s.terminals tid, p.2.isActive = true →
        some p.1 = s.activeTerminalId :=
      fun p hp hA => h.activeCoh p (mem_of_mem_mapDelete _ _ _ hp) hA
    by_cases hactiv : s.activeTerminalId = some tid
    · rw [if_pos hactiv]
      unfold handleActiveTerminalClosed
      cases hlast : (mapDelete s.terminals tid).getLast? with
      | some newActive =>
        simp only []
        have hmem : newActive ∈ mapDelete s.terminals tid := muxGetLast_mem _ _ hlast
        have hkey : newActive.2.id = newActive.1 := hid1 newActive hmem
        have hmemk : newActive.2.id ∈ (mapDelete s.terminals tid).map Prod.fst := by
          rw [hkey]
          exact List.mem_map.mpr ⟨newActive, hmem, rfl⟩
        rcases mapGet_isSome_of_mem_keys _ _ hmemk with ⟨v, hv⟩
        exact muxInv_switch_present _ _ v hnd1 hne1 hid1 hcoh1 hv
      | none =>
        simp only []
        have hempty : mapDelete s.terminals tid = [] := by
          exact List.getLast?_eq_none_iff.mp hlast
        unfold TerminalStateManager.clearActive
        refine (muxInv_createTerminal _ freshId fi ?_ ?_ ?_ ?_ ?_ hfne).1
        · show ((mapDelete s.terminals tid).map Prod.fst).Nodup
          exact hnd1
        · exact hne1
        · exact hid1
        · intro p hp hA
          rw [hempty] at hp
          simp at hp
        · show freshId ∉ (mapDelete s.terminals tid).map Prod.fst
          rw [hempty]
          simp
    · rw [if_neg hactiv]
      constructor
      · exact hnd1
      · exact hne1
      · exact hid1
      · exact hcoh1
      · intro hne2
        have hsne : s.terminals ≠ [] := by
          intro hcon
          rw [hcon] at hget
          simp [mapGet] at hget
        rcases h.activeLive hsne with ⟨q, hq, hqa, hqact⟩
        have hqtid : q.1 ≠ tid := by
          intro hcon
          apply hactiv
          rw [← hqa, hcon]
        exact ⟨q, mem_mapDelete_of_ne _ _ _ hq hqtid, hqa, hqact⟩

theorem muxInv_next (s : MuxState) (h : MuxInv s) : MuxInv (switchToNextTerminal s) := by
  unfold switchToNextTerminal
  by_cases hguard : (muxKeys s).length ≤ 1
  · rw [if_pos hguard]
    exact h
  · rw [if_neg hguard]
    exact muxInv_switchToTerminal s _ h

theorem muxInv_prev (s : MuxState) (h : MuxInv s) : MuxInv (switchToPreviousTerminal s) := by
  unfold switchToPreviousTerminal
  by_cases hguard : (muxKeys s).length ≤ 1
  · rw [if_pos hguard]
    exact h
  · rw [if_neg hguard]
    exact muxInv_switchToTerminal s _ h

theorem muxInv_step (s : MuxState) (op : MuxOp) (h : MuxInv s) (hf : freshOk s op = true) :
    MuxInv (muxStep s op) := by
  cases op with
  | create freshId fi =>
    rw [freshOk, Bool.and_eq_true, decide_eq_true_iff, decide_eq_true_iff] at hf
    exact (muxInv_createTerminal s freshId fi h.keysNodup h.keysNe h.idCoh h.activeCoh
      hf.2 hf.1).1
  | close tid freshId fi =>
    rw [freshOk, Bool.and_eq_true, decide_eq_true_iff, decide_eq_true_iff] at hf
    exact muxInv_closeTerminal s tid freshId fi h hf.2 hf.1
  | switchTab tid => exact muxInv_switchToTerminal s tid h
  | nextTab => exact muxInv_next s h
  | prevTab => exact muxInv_prev s h

theorem muxInv_reachable (s : MuxState) (h : MuxReachable s) : MuxInv s := by
  induction h with
  | init => exact muxInv_init
  | step t op _ hf ih => exact muxInv_step t op ih hf

/-! ### Claim C1 -/

/-- C1: for every finite sequence of createTerminal, switchToTerminal,
    closeTerminal, switchToNextTerminal and switchToPreviousTerminal
    operations starting from the empty multiplexer state, at most one
    terminal instance has `isActive = true` after each operation
    completes, including through the auto-recreate path taken when the
    last terminal is closed. -/
theorem mux_at_most_one_active (s : MuxState) (h : MuxReachable s) : countActive s ≤ 1 := by
  have inv := muxInv_reachable s h
  unfold countActive
  rcases hf : s.terminals.filter (fun p => p.2.isActive) with _ | ⟨p, _ | ⟨q, t⟩⟩
  · simp [hf]
  · simp [hf]
  · exfalso
    have hsub : (s.terminals.filter (fun p => p.2.isActive)).Sublist s.terminals :=
      List.filter_sublist _
    have hnodup : ((s.terminals.filter (fun p => p.2.isActive)).map Prod.fst).Nodup :=
      (hsub.map Prod.fst).nodup inv.keysNodup
    have hpf : p ∈ s.terminals.filter (fun p => p.2.isActive) := by rw [hf]; simp
    have hqf : q ∈ s.terminals.filter (fun p => p.2.isActive) := by rw [hf]; simp
    have hpm := List.mem_filter.mp hpf
    have hqm := List.mem_filter.mp hqf
    have h1 := inv.activeCoh p hpm.1 (by simpa using hpm.2)
    have h2 := inv.activeCoh q hqm.1 (by simpa using hqm.2)
    have hpq : p.1 = q.1 := Option.some.inj (h1.trans h2.symm)
    rw [hf, List.map_cons, List.map_cons, List.nodup_cons] at hnodup
    exact hnodup.1 (by rw [hpq]; simp)

theorem mux_at_most_one_active_witness : countActive muxDemo2 ≤ 1 :=
  mux_at_most_one_active muxDemo2
    (MuxReachable.step muxDemo1 (MuxOp.create "terminal-2-b" none)
      (MuxReachable.step muxInit (MuxOp.create "terminal-1-a" none)
        MuxReachable.init (by decide))
      (by decide))

/-! ### Claim C2 -/

/-- C2: whenever closeTerminal(id) is called on a reachable state in which
    id is the only open terminal, then after the operation (including the
    automatic re-create step) completes, exactly one terminal is open —
    never zero. -/
theorem close_last_terminal_recreates (s : MuxState) (terminalId freshId : String)
    (folderIndex : Option Nat) (h : MuxReachable s)
    (hkeys : muxKeys s = [terminalId])
    (hfresh : freshOk s (MuxOp.close terminalId freshId folderIndex) = true) :
    (muxStep s (MuxOp.close terminalId freshId folderIndex)).terminals.length = 1 := by
  have inv := muxInv_reachable s h
  rw [freshOk, Bool.and_eq_true, decide_eq_true_iff, decide_eq_true_iff] at hfresh
  unfold muxKeys at hkeys
  have hterm : ∃ v, s.terminals = [(terminalId, v)] := by
    cases ht : s.terminals with
    | nil =>
      rw [ht] at hkeys
      simp at hkeys
    | cons p rest =>
      rw [ht, List.map_cons] at hkeys
      injection hkeys with h1 h2
      have hrest : rest = [] := List.map_eq_nil_iff.mp h2
      refine ⟨p.2, ?_⟩
      rw [hrest]
      cases p with
      | mk a b => simp_all
  rcases hterm with ⟨v, hv⟩
  have hact : s.activeTerminalId = some terminalId := by
    have hne : s.terminals ≠ [] := by rw [hv]; simp
    rcases inv.activeLive hne with ⟨q, hq, hqa, _⟩
    rw [hv] at hq
    simp at hq
    rw [hq] at hqa
    exact hqa.symm
  show (closeTerminal s terminalId freshId folderIndex).terminals.length = 1
  unfold closeTerminal
  have hget : mapGet s.terminals terminalId = some v := by rw [hv]; simp [mapGet]
  rw [hget]
  simp only [TerminalStateManager.getActiveId]
  rw [if_pos hact]
  unfold handleActiveTerminalClosed
  have hdel : mapDelete s.terminals terminalId = [] := by rw [hv]; simp [mapDelete]
  simp only [hdel]
  show (createTerminal _ freshId folderIndex).terminals.length = 1
  have hlen := (muxInv_createTerminal
      (TerminalStateManager.clearActive
        { terminals := ([] : List (String × TerminalInstance)),
          activeTerminalId := s.activeTerminalId,
          terminalCounter := s.terminalCounter })
      freshId folderIndex (by simp [muxKeys, TerminalStateManager.clearActive])
      (by intro p hp; simp [TerminalStateManager.clearActive] at hp)
      (by intro p hp; simp [TerminalStateManager.clearActive] at hp)
      (by intro p hp; simp [TerminalStateManager.clearActive] at hp)
      (by simp [muxKeys, TerminalStateManager.clearActive]) hfresh.1).2
  simpa using hlen

theorem close_last_terminal_recreates_witness :
    (muxStep muxDemo1 (MuxOp.close "terminal-1-a" "terminal-9-z" none)).terminals.length = 1 :=
  close_last_terminal_recreates muxDemo1 "terminal-1-a" "terminal-9-z" none
    (MuxReachable.step muxInit (MuxOp.create "terminal-1-a" none)
      MuxReachable.init (by decide))
    (by decide) (by decide)

/-! ### Claim C3: the next/previous cycle -/

theorem keys_muxActivate (s : MuxState) (a : String) :
    muxKeys (muxActivate s a) = muxKeys s := by
  show (setFlags s.terminals a).map Prod.fst = s.terminals.map Prod.fst
  exact keys_setFlags _ _

theorem muxActivate_muxActivate (s : MuxState) (b x : String) :
    muxActivate (muxActivate s b) x = muxActivate s x := by
  unfold muxActivate
  simp only []
  rw [setFlags_setFlags]

/-- A state that already has exactly `a` active is a fixed point of the
    canonical activation. -/
theorem muxActivate_self (s : MuxState) (inv : MuxInv s) (a : String)
    (ha : s.activeTerminalId = some a) : muxActivate s a = s := by
  unfold muxActivate
  have hterm : setFlags s.terminals a = s.terminals := by
    unfold setFlags
    have hmap : s.terminals.map (fun p => (p.1, { p.2 with isActive := decide (p.1 = a) })) =
        s.terminals.map id := by
      apply List.map_congr_left
      intro p hp
      by_cases hpa : p.1 = a
      · have hlive := inv.activeLive (by
          intro hc
          rw [hc] at hp
          simp at hp)
        rcases hlive with ⟨q, hq, hqa, hqact⟩
        rw [ha] at hqa
        injection hqa with hqa
        have hpq : p = q :=
          entry_key_inj s.terminals inv.keysNodup p q hp hq (by rw [hpa, hqa])
        have hact : p.2.isActive = true := by rw [hpq]; exact hqact
        cases p with
        | mk k v =>
          cases v
          simp_all
      · have hact : p.2.isActive = false := by
          cases hA : p.2.isActive
          · rfl
          · have hc := inv.activeCoh p hp hA
            rw [ha] at hc
            injection hc with hc
            exact absurd hc hpa
        cases p with
        | mk k v =>
          cases v
          simp_all
    rw [hmap, List.map_id]
  rw [hterm, ← ha]

theorem jsIndexOf_get (l : List String) (hnd : l.Nodup) (i : Nat) (hi : i < l.length) :
    jsIndexOf l (l.get ⟨i, hi⟩) = (i : Int) := by
  induction l generalizing i with
  | nil => simp at hi
  | cons a rest ih =>
    cases i with
    | zero =>
      show jsIndexOf (a :: rest) a = 0
      unfold jsIndexOf
      rw [if_pos rfl]
    | succ j =>
      have hj : j < rest.length := by simpa using hi
      have hx : (a :: rest).get ⟨j + 1, hi⟩ = rest.get ⟨j, hj⟩ := rfl
      rw [hx]
      unfold jsIndexOf
      rw [List.nodup_cons] at hnd
      have hne : ¬(a = rest.get ⟨j, hj⟩) := by
        intro hc
        exact hnd.1 (hc ▸ rest.get_mem _ _)
      rw [if_neg hne, ih hnd.2 j hj]
      rw [if_neg (by omega)]
      push_cast
      ring

/-- One `switchToNextTerminal` step moves the active index forward by one
    (mod the number of terminals). -/
theorem nextTerminal_eq (s : MuxState) (inv : MuxInv s) (i : Nat)
    (hi : i < (muxKeys s).length) (hn : 2 ≤ (muxKeys s).length)
    (ha : s.activeTerminalId = some ((muxKeys s).getD i "")) :
    switchToNextTerminal s =
      muxActivate s ((muxKeys s).getD ((i + 1) % (muxKeys s).length) "") := by
  unfold switchToNextTerminal
  rw [if_neg (by omega)]
  simp only [TerminalStateManager.getActiveId]
  rw [ha]
  simp only [Option.getD_some]
  rw [List.getD_eq_get _ _ hi, jsIndexOf_get (muxKeys s) inv.keysNodup i hi]
  have hidx : (((i : Int) + 1) % ((muxKeys s).length : Int)).toNat =
      (i + 1) % (muxKeys s).length := by
    have h1 : ((i : Int) + 1) = ((i + 1 : Nat) : Int) := by push_cast; ring
    rw [h1, ← Int.natCast_mod, Int.toNat_natCast]
  rw [hidx]
  have hlt : (i + 1) % (muxKeys s).length < (muxKeys s).length := Nat.mod_lt _ (by omega)
  have htm : (muxKeys s).getD ((i + 1) % (muxKeys s).length) "" ∈ muxKeys s := by
    rw [List.getD_eq_get _ _ hlt]
    exact List.get_mem _ _ _
  rcases mapGet_isSome_of_mem_keys s.terminals _ htm with ⟨v, hv⟩
  unfold switchToTerminal
  rw [hv]
  exact setActive_present s _ v inv.keysNe inv.activeCoh hv

/-- One `switchToPreviousTerminal` step moves the active index backward by
    one, i.e. forward by (length − 1), mod the number of terminals. -/
theorem prevTerminal_eq (s : MuxState) (inv : MuxInv s) (i : Nat)
    (hi : i < (muxKeys s).length) (hn : 2 ≤ (muxKeys s).length)
    (ha : s.activeTerminalId = some ((muxKeys s).getD i "")) :
    switchToPreviousTerminal s =
      muxActivate s
        ((muxKeys s).getD ((i + ((muxKeys s).length - 1)) % (muxKeys s).length) "") := by
  unfold switchToPreviousTerminal
  rw [if_neg (by omega)]
  simp only [TerminalStateManager.getActiveId]
  rw [ha]
  simp only [Option.getD_some]
  rw [List.getD_eq_get _ _ hi, jsIndexOf_get (muxKeys s) inv.keysNodup i hi]
  have hidx : (((i : Int) - 1 + ((muxKeys s).length : Int)) % ((muxKeys s).length : Int)).toNat =
      (i + ((muxKeys s).length - 1)) % (muxKeys s).length := by
    have hl1 : (1 : Nat) ≤ (muxKeys s).length := by omega
    have h1 : ((i : Int) - 1 + ((muxKeys s).length : Int)) =
        ((i + ((muxKeys s).length - 1) : Nat) : Int) := by
      rw [Nat.cast_add, Nat.cast_sub hl1]
      push_cast
      ring
    rw [h1, ← Int.natCast_mod, Int.toNat_natCast]
  rw [hidx]
  have hlt : (i + ((muxKeys s).length - 1)) % (muxKeys s).length < (muxKeys s).length :=
    Nat.mod_lt _ (by omega)
  have htm : (muxKeys s).getD ((i + ((muxKeys s).length - 1)) % (muxKeys s).length) "" ∈
      muxKeys s := by
    rw [List.getD_eq_get _ _ hlt]
    exact List.get_mem _ _ _
  rcases mapGet_isSome_of_mem_keys s.terminals _ htm with ⟨v, hv⟩
  unfold switchToTerminal
  rw [hv]
  exact setActive_present s _ v inv.keysNe inv.activeCoh hv

/-- k applications of a step that advances the active index by `d` land on
    index `(i + k*d) mod n`. -/
theorem iterate_activate (op : MuxState → MuxState) (d : Nat) (s : MuxState)
    (hinv : MuxInv s)
    (hpres : ∀ t, MuxInv t → MuxInv (op t))
    (hstep : ∀ t, MuxInv t → muxKeys t = muxKeys s → ∀ j, j < (muxKeys t).length →
      2 ≤ (muxKeys t).length →
      t.activeTerminalId = some ((muxKeys t).getD j "") →
      op t = muxActivate t ((muxKeys t).getD ((j + d) % (muxKeys t).length) ""))
    (i : Nat) (hi : i < (muxKeys s).length) (hn : 2 ≤ (muxKeys s).length)
    (ha : s.activeTerminalId = some ((muxKeys s).getD i ""))
    (k : Nat) :
    Nat.iterate op k s =
      muxActivate s ((muxKeys s).getD ((i + k * d) % (muxKeys s).length) "") := by
  have hIter : ∀ m, MuxInv (Nat.iterate op m s) := by
    intro m
    induction m with
    | zero => exact hinv
    | succ m ihm =>
      rw [Function.iterate_succ_apply']
      exact hpres _ ihm
  induction k with
  | zero =>
    show s = _
    rw [Nat.zero_mul, Nat.add_zero, Nat.mod_eq_of_lt hi]
    exact (muxActivate_self s hinv _ ha).symm
  | succ k ih =>
    rw [Function.iterate_succ_apply', ih]
    have hInvK : MuxInv (muxActivate s ((muxKeys s).getD ((i + k * d) % (muxKeys s).length) "")) := by
      rw [← ih]
      exact hIter k
    have hkeysT : muxKeys (muxActivate s ((muxKeys s).getD ((i + k * d) % (muxKeys s).length) "")) =
        muxKeys s := keys_muxActivate _ _
    have hlt : (i + k * d) % (muxKeys s).length < (muxKeys s).length := Nat.mod_lt _ (by omega)
    have hstepT := hstep _ hInvK hkeysT ((i + k * d) % (muxKeys s).length)
      (by rw [hkeysT]; exact hlt) (by rw [hkeysT]; exact hn)
      (by rw [hkeysT]; rfl)
    rw [hstepT, muxActivate_muxActivate]
    congr 1
    rw [hkeysT, Nat.mod_add_mod]
    congr 1
    ring

/-- C3: in every reachable multiplexer state with N terminals and one
    active terminal, if N ≥ 2 then N applications of switchToNextTerminal
    return the state (hence the active flag) to the originally active
    terminal, and likewise for switchToPreviousTerminal; if N ≤ 1 both
    operations leave the state unchanged. -/
theorem next_prev_cycle (s : MuxState) (h : MuxReachable s) :
    (2 ≤ s.terminals.length →
      Nat.iterate switchToNextTerminal s.terminals.length s = s ∧
      Nat.iterate switchToPreviousTerminal s.terminals.length s = s) ∧
    (s.terminals.length ≤ 1 →
      switchToNextTerminal s = s ∧ switchToPreviousTerminal s = s) := by
  have inv := muxInv_reachable s h
  have hklen : (muxKeys s).length = s.terminals.length := List.length_map _ _
  constructor
  · intro hn2
    have hn : 2 ≤ (muxKeys s).length := by omega
    have hne : s.terminals ≠ [] := by
      intro hc
      rw [hc] at hn2
      simp at hn2
    rcases inv.activeLive hne with ⟨q, hq, hqa, _⟩
    have hqk : q.1 ∈ muxKeys s := List.mem_map.mpr ⟨q, hq, rfl⟩
    rcases List.mem_iff_get.mp hqk with ⟨⟨i, hi⟩, hqi⟩
    have ha : s.activeTerminalId = some ((muxKeys s).getD i "") := by
      rw [← hqa, List.getD_eq_get _ _ hi, hqi]
    constructor
    · rw [iterate_activate switchToNextTerminal 1 s inv
        (fun t ht => muxInv_next t ht)
        (fun t ht _ j hj hnt hat => nextTerminal_eq t ht j hj hnt hat)
        i hi hn ha s.terminals.length]
      have hix : (i + s.terminals.length * 1) % (muxKeys s).length = i := by
        rw [Nat.mul_one, ← hklen, Nat.add_mod_right, Nat.mod_eq_of_lt hi]
      rw [hix]
      exact muxActivate_self s inv _ ha
    · rw [iterate_activate switchToPreviousTerminal ((muxKeys s).length - 1) s inv
        (fun t ht => muxInv_prev t ht)
        (fun t ht hkt j hj hnt hat => by
          rw [prevTerminal_eq t ht j hj hnt hat, hkt])
        i hi hn ha s.terminals.length]
      have hix : (i + s.terminals.length * ((muxKeys s).length - 1)) % (muxKeys s).length = i := by
        rw [← hklen, Nat.add_mul_mod_self_left, Nat.mod_eq_of_lt hi]
      rw [hix]
      exact muxActivate_self s inv _ ha
  · intro hn1
    have hg : (muxKeys s).length ≤ 1 := by omega
    constructor
    · unfold switchToNextTerminal
      rw [if_pos hg]
    · unfold switchToPreviousTerminal
      rw [if_pos hg]

theorem next_prev_cycle_witness :
    2 ≤ muxDemo2.terminals.length ∧
      Nat.iterate switchToNextTerminal muxDemo2.terminals.length muxDemo2 = muxDemo2 ∧
      Nat.iterate switchToPreviousTerminal muxDemo2.terminals.length muxDemo2 = muxDemo2 :=
  ⟨by decide,
    (next_prev_cycle muxDemo2
      (MuxReachable.step muxDemo1 (MuxOp.create "terminal-2-b" none)
        (MuxReachable.step muxInit (MuxOp.create "terminal-1-a" none)
          MuxReachable.init (by decide))
        (by decide))).1 (by decide)⟩

/-! ### Claim C10: setActive with an unknown id -/

/-- C10: calling TerminalStateManager.setActive(id) with an id not present
    in the terminals map while some other terminal is active deactivates
    the previously active terminal but leaves activeTerminalId unchanged:
    afterwards getActiveId() names a terminal whose isActive flag is
    false, and no terminal in the map is active. -/
theorem setActive_missing_id_dangling (s : MuxState) (prev id : String)
    (inst : TerminalInstance)
    (hact : s.activeTerminalId = some prev)
    (hprevne : prev ≠ "")
    (hprev : mapGet s.terminals prev = some inst)
    (_hinstA : inst.isActive = true)
    (hid : mapGet s.terminals id = none)
    (honly : ∀ p ∈ s.terminals, p.2.isActive = true → p.1 = prev) :
    TerminalStateManager.getActiveId (TerminalStateManager.setActive s id) = some prev ∧
    mapGet (TerminalStateManager.setActive s id).terminals prev =
      some { inst with isActive := false } ∧
    ∀ p ∈ (TerminalStateManager.setActive s id).terminals, p.2.isActive = false := by
  have hpi : prev ≠ id := by
    intro hc
    rw [hc, hid] at hprev
    exact Option.noConfusion hprev
  have hdeact : deactivatePrevious s id = setFlagAt s.terminals prev false := by
    unfold deactivatePrevious
    rw [hact]
    simp only []
    rw [if_pos ⟨hprevne, hpi⟩, hprev]
  rw [setActive_absent s id hid]
  refine ⟨?_, ?_, ?_⟩
  · show s.activeTerminalId = some prev
    exact hact
  · show mapGet (deactivatePrevious s id) prev = _
    rw [hdeact, mapGet_setFlagAt_self, hprev]
    rfl
  · intro p hp
    show p.2.isActive = false
    rw [hdeact] at hp
    unfold setFlagAt at hp
    rcases List.mem_map.mp hp with ⟨q, hq, hqe⟩
    by_cases hqp : q.1 = prev
    · rw [if_pos hqp] at hqe
      rw [← hqe]
    · rw [if_neg hqp] at hqe
      rw [← hqe]
      cases hA : q.2.isActive
      · rfl
      · exact absurd (honly q hq hA) hqp

theorem setActive_missing_id_dangling_witness :
    TerminalStateManager.getActiveId
        (TerminalStateManager.setActive muxDangling "terminal-zz") = some "terminal-1-a" ∧
    mapGet (TerminalStateManager.setActive muxDangling "terminal-zz").terminals "terminal-1-a" =
      some { id := "terminal-1-a", name := "Claude 1", isActive := false,
             workspaceFolderIndex := none } ∧
    ∀ p ∈ (TerminalStateManager.setActive muxDangling "terminal-zz").terminals,
      p.2.isActive = false :=
  setActive_missing_id_dangling muxDangling "terminal-1-a" "terminal-zz"
    ⟨"terminal-1-a", "Claude 1", true, none⟩
    (by decide) (by decide) (by decide) (by decide) (by decide) (by decide)

/-! ### Claims C8 and C9: restart grace window -/

/-- C8: after restart() kills the active session's process, a process-exit
    event delivered while the grace window is open (isRestarting still
    true, before the 100 ms timer fires) produces no
    `[Process exited with code N]` output message, while an exit event
    delivered after the grace window has elapsed is still reported. -/
theorem restart_grace_window (p : ProviderFlags) (a terminalId : String) (code : Int)
    (hd : p.disposed = false) (hv : p.hasView = true)
    (ha : p.activeTerminalId = some a) (hne : a ≠ "") :
    handlePtyExit (ClaudeTerminalViewProvider.restart p).1 terminalId code = none ∧
    handlePtyExit (restartTimerFire (ClaudeTerminalViewProvider.restart p).1) terminalId code =
      some (exitMessage terminalId code) := by
  have hrestart : (ClaudeTerminalViewProvider.restart p).1 = { p with isRestarting := true } := by
    unfold ClaudeTerminalViewProvider.restart
    rw [ha]
    simp only []
    rw [if_neg hne]
  rw [hrestart]
  constructor
  · unfold handlePtyExit
    rw [if_neg (by simp)]
  · unfold restartTimerFire handlePtyExit
    rw [if_pos (by simp [hd, hv])]

theorem restart_grace_window_witness :
    handlePtyExit (ClaudeTerminalViewProvider.restart demoProvider).1 "terminal-2-b" 1 = none ∧
    handlePtyExit (restartTimerFire (ClaudeTerminalViewProvider.restart demoProvider).1)
        "terminal-2-b" 1 = some (exitMessage "terminal-2-b" 1) :=
  restart_grace_window demoProvider "terminal-1-a" "terminal-2-b" 1
    (by decide) (by decide) (by decide) (by decide)

/-- C9: while the provider-wide isRestarting flag is true, handlePtyExit
    emits no exit message for any terminalId whatsoever — the flag has no
    per-terminal check, so an unrelated live session whose process exits
    during another session's restart window has its exit silently
    dropped. -/
theorem restart_suppression_global (p : ProviderFlags) (terminalId : String) (code : Int)
    (h : p.isRestarting = true) :
    handlePtyExit p terminalId code = none := by
  unfold handlePtyExit
  rw [if_neg (by simp [h])]

theorem restart_suppression_global_witness :
    handlePtyExit demoRestarting "terminal-other" 0 = none :=
  restart_suppression_global demoRestarting "terminal-other" 0 (by decide)

/-! ### Claim C5: help cache age policy -/

/-- C5: getHelp returns the cached result without executing any probe when
    the entry's age is strictly below cacheMaxAge; an entry whose age is
    at least cacheMaxAge is treated exactly as an absent entry, and (with
    no in-flight request for the command) the probe is re-executed and a
    fresh timestamped entry is stored. -/
theorem getHelp_cache_age_policy (opts : HelpExecutorOptions)
    (cache : List (String × HelpCacheEntry)) (pending : List String)
    (command : String) (now : Int) (entry : HelpCacheEntry)
    (hnd : (cache.map Prod.fst).Nodup)
    (hc : mapGet cache command = some entry) :
    (now - entry.timestamp < opts.cacheMaxAge →
      HelpExecutor.getHelpStep opts cache pending command now =
        GetHelpStep.cached entry.result) ∧
    (opts.cacheMaxAge ≤ now - entry.timestamp →
      HelpExecutor.getHelpStep opts cache pending command now =
        HelpExecutor.getHelpStep opts (mapDelete cache command) pending command now ∧
      (pending.contains command = false →
        HelpExecutor.getHelpStep opts cache pending command now = GetHelpStep.execute ∧
        ∀ result now2,
          mapGet (HelpExecutor.updateCache opts cache command result now2) command =
            some { result := result, timestamp := now2 })) := by
  constructor
  · intro hfresh
    unfold HelpExecutor.getHelpStep
    rw [hc]
    simp only []
    rw [if_pos hfresh]
  · intro hstale
    have hnl : ¬(now - entry.timestamp < opts.cacheMaxAge) := by omega
    constructor
    · unfold HelpExecutor.getHelpStep
      rw [hc, mapGet_mapDelete_self cache command hnd]
      simp only []
      rw [if_neg hnl]
    · intro hnp
      constructor
      · unfold HelpExecutor.getHelpStep
        rw [hc]
        simp only []
        rw [if_neg hnl, if_neg (by rw [hnp]; simp)]
      · intro result now2
        unfold HelpExecutor.updateCache
        simp only []
        exact mapGet_mapSet_self _ _ _

theorem getHelp_cache_age_policy_witness :
    HelpExecutor.getHelpStep defaultHelpExecutorOptions [("git", demoCacheEntry)] [] "git"
        400000 = GetHelpStep.execute ∧
    mapGet (HelpExecutor.updateCache defaultHelpExecutorOptions [("git", demoCacheEntry)]
        "git" demoCacheEntry.result 400000) "git" =
      some { result := demoCacheEntry.result, timestamp := 400000 } :=
  ((getHelp_cache_age_policy defaultHelpExecutorOptions [("git", demoCacheEntry)] [] "git"
      400000 demoCacheEntry (by decide) (by decide)).2 (by decide)).2 (by decide)
    |>.imp id (fun hstore => hstore demoCacheEntry.result 400000)

/-! ### Claim C6: the help probe chain -/

/-- C6: executeHelp tries the candidate invocations in the fixed order
    '--help', '-h', 'help': the first attempt whose captured output
    (stdout, else stderr) has more than 50 characters is parsed and
    returned; a timed-out, failed or too-short attempt advances to the
    next candidate, and when every candidate is exhausted the function
    still resolves, with an empty flag list and a diagnostic reason. -/
theorem executeHelp_probe_chain (command : String) (outcomes : Nat → AttemptOutcome) :
    helpFlags = ["--help", "-h", "help"] ∧
    HelpExecutor.executeHelp command outcomes =
      (match (List.range helpFlags.length).findSome? (fun i => attemptAccepts (outcomes i)) with
       | some output => CommandHelpParser.parse command output
       | none => { command := command, flags := [], subcommands := none,
                   parseErrors := some ["Command does not support --help"] }) ∧
    (∀ stdout stderr,
      (attemptAccepts (AttemptOutcome.closed stdout stderr)).isSome =
        decide (50 < (if stdout ≠ "" then stdout else stderr).length)) := by
  refine ⟨rfl, ?_, ?_⟩
  · show executeHelpGo command outcomes helpFlags 0 = _
    have hrange : List.range helpFlags.length = [0, 1, 2] := rfl
    rw [hrange]
    cases h0 : attemptAccepts (outcomes 0) with
    | some out0 => simp [executeHelpGo, helpFlags, List.findSome?, h0]
    | none =>
      cases h1 : attemptAccepts (outcomes 1) with
      | some out1 => simp [executeHelpGo, helpFlags, List.findSome?, h0, h1]
      | none =>
        cases h2 : attemptAccepts (outcomes 2) with
        | some out2 => simp [executeHelpGo, helpFlags, List.findSome?, h0, h1, h2]
        | none => simp [executeHelpGo, helpFlags, List.findSome?, h0, h1, h2]
  · intro stdout stderr
    unfold attemptAccepts
    simp only []
    set out := if stdout ≠ "" then stdout else stderr with hout
    by_cases hlen : 50 < out.length
    · have hne : out ≠ "" := by
        intro hc
        rw [hc] at hlen
        simp at hlen
      rw [if_pos ⟨hne, hlen⟩]
      simp [hlen]
    · rw [if_neg (fun hcon => hlen hcon.2)]
      simp [hlen]

/-! ### Claim C7: the parser chain -/

/-- C7: CommandHelpParser.parse runs its strategies in the fixed order
    GNU-style, argparse-style, generic fallback, and returns the result
    of the first strategy that both claims recognition of the text and
    extracts at least one flag; if every strategy yields zero flags the
    returned value has an empty flag list and a diagnostic note (the
    function is total, so no error is raised). -/
theorem parser_chain_first_match (command output : String) :
    CommandHelpParser.parse command output =
      (if GnuStyleParser.canParse output = true ∧
          (GnuStyleParser.parse command output).flags ≠ [] then
        GnuStyleParser.parse command output
      else if ArgparseStyleParser.canParse output = true ∧
          (ArgparseStyleParser.parse command output).flags ≠ [] then
        ArgparseStyleParser.parse command output
      else if (FallbackParser.parse command output).flags ≠ [] then
        FallbackParser.parse command output
      else
        { command := command, flags := [], subcommands := none,
          parseErrors := some ["No flags found in help output"] }) := by
  unfold CommandHelpParser.parse commandHelpParsers
  by_cases hg : GnuStyleParser.canParse output = true <;>
    by_cases hgf : (GnuStyleParser.parse command output).flags = [] <;>
    by_cases ha : ArgparseStyleParser.canParse output = true <;>
    by_cases haf : (ArgparseStyleParser.parse command output).flags = [] <;>
    by_cases hff : (FallbackParser.parse command output).flags = [] <;>
    simp [CommandHelpParser.parseGo, FallbackParser.canParse, hg, hgf, ha, haf, hff,
      List.length_pos]

/-! ### Claim C4: de-duplication of parsed flags -/

/-- C4 counterexample: a single CommandHelpParser.parse call whose flag
    list contains two entries with the same long-form flag key
    `--verbose` (the GNU-style strategy does not de-duplicate). -/
theorem parse_duplicate_long_key_counterexample :
    ¬ (((CommandHelpParser.parse "tool" gnuDupHelpText).flags.map
        (fun f => f.flag)).Nodup) ∧
    ((CommandHelpParser.parse "tool" gnuDupHelpText).flags.map (fun f => f.flag)) =
      ["--verbose", "--verbose"] := by
  constructor
  · decide
  · decide

/-- C4 amended: only the fallback strategy de-duplicates — within one
    FallbackParser.parse result no two entries share a flag key. -/
theorem fallback_dedup_by_flag_key (command output : String) :
    (((FallbackParser.parse command output).flags.map (fun f => f.flag)).Nodup) := by
  have hfold : ∀ (lines : List String) (acc : List CommandFlag × List String),
      (acc.1.map (fun f => f.flag)).Nodup →
      (∀ f ∈ acc.1, f.flag ∈ acc.2) →
      (((lines.foldl fbLineStep acc).1.map (fun f => f.flag)).Nodup ∧
        ∀ f ∈ (lines.foldl fbLineStep acc).1, f.flag ∈ (lines.foldl fbLineStep acc).2) := by
    intro lines
    induction lines with
    | nil => exact fun acc h1 h2 => ⟨h1, h2⟩
    | cons line rest ih =>
      intro acc h1 h2
      rw [List.foldl_cons]
      apply ih
      · unfold fbLineStep
        cases hm : fbMatchLine line with
        | none => exact h1
        | some fd =>
          simp only []
          by_cases hseen : (!(acc.2.contains fd.1) && !(strIncludes fd.1 "=")) = true
          · rw [if_pos hseen]
            rw [List.map_append]
            rw [List.nodup_append]
            refine ⟨h1, by simp, ?_⟩
            intro a hax hay
            simp at hay
            rcases List.mem_map.mp hax with ⟨f, hf, hfe⟩
            have hfa : fd.1 ∈ acc.2 := by
              rw [← hay, ← hfe]
              exact h2 f hf
            rw [Bool.and_eq_true, Bool.not_eq_true'] at hseen
            exact absurd hfa (by simpa using hseen.1)
          · rw [if_neg hseen]
            exact h1
      · unfold fbLineStep
        cases hm : fbMatchLine line with
        | none => exact h2
        | some fd =>
          simp only []
          by_cases hseen : (!(acc.2.contains fd.1) && !(strIncludes fd.1 "=")) = true
          · rw [if_pos hseen]
            intro f hf
            rcases List.mem_append.mp hf with hf1 | hf1
            · exact List.mem_append.mpr (Or.inl (h2 f hf1))
            · rw [List.mem_singleton.mp hf1]
              exact List.mem_append.mpr (Or.inr (by simp))
          · rw [if_neg hseen]
            exact h2
  unfold FallbackParser.parse
  exact (hfold (jsLines output) ([], []) (by simp) (by simp)).1
